import Mathlib

/-!
Verification development for the gamevault backend core: the library
reconciliation engine (filename parsing, existence classification, sort-title
normalization) and the metadata merge engine (provider registry, priority
fold, relation normalization and upsert, merge job queue).

The service implementations themselves are not part of the shipped sources
here, only their unit tests are; every operation below is therefore modelled
from the specification text and validated against the concrete expectations
recorded in the unit tests.
-/

namespace GameVault

/-! ## Character helpers -/

/-- True for an ASCII decimal digit. -/
def isDigitChar (c : Char) : Bool :=
  '0' ≤ c && c ≤ '9'

/-- True for an ASCII uppercase letter. -/
def isAsciiUpper (c : Char) : Bool :=
  'A' ≤ c && c ≤ 'Z'

/-- True for an ASCII lowercase letter. -/
def isAsciiLower (c : Char) : Bool :=
  'a' ≤ c && c ≤ 'z'

/-- True for an ASCII letter or digit. -/
def isAlphaNum (c : Char) : Bool :=
  isAsciiUpper c || isAsciiLower c || isDigitChar c

/-- True for the whitespace characters recognized by the title normalizer. -/
def isSpaceChar (c : Char) : Bool :=
  c = ' ' || c = '\t' || c = '\n' || c = '\r'

/-- ASCII lowercasing of a single character. -/
def toLowerChar (c : Char) : Char :=
  if isAsciiUpper c then Char.ofNat (c.toNat + 32) else c

/-- Boolean test that the first list is an initial segment of the second. -/
def startsWith : List Char → List Char → Bool
  | [], _ => true
  | _ :: _, [] => false
  | a :: as, b :: bs => a = b && startsWith as bs

/-! ## Sort-title normalization (GamesService.generateSortTitle)

Modelled from the spec: the games service derives a sort title by
lowercasing, dropping characters other than letters, digits and whitespace,
collapsing whitespace runs to single spaces, trimming the ends, and then
stripping one leading article (the, an, a) when it is followed by a space.
The implementation is absent from the sources; the model reproduces every
expectation of the generateSortTitle unit tests. -/

/-- Characters the sort-title normalizer keeps before word-splitting. -/
def keepForSort (c : Char) : Bool :=
  isAlphaNum c || isSpaceChar c

/-- Splits a character list into maximal whitespace-free words; the first
argument accumulates the current word in reverse. -/
def wordsCore (acc : List Char) : List Char → List (List Char)
  | [] => if acc.isEmpty then [] else [acc.reverse]
  | c :: cs =>
    if isSpaceChar c then
      if acc.isEmpty then wordsCore [] cs else acc.reverse :: wordsCore [] cs
    else wordsCore (c :: acc) cs

/-- Splits into maximal whitespace-free words. -/
def splitWords (s : List Char) : List (List Char) :=
  wordsCore [] s

/-- Joins words with single spaces, no leading or trailing space. -/
def unwords : List (List Char) → List Char
  | [] => []
  | [w] => w
  | w :: ws => w ++ ' ' :: unwords ws

/-- Lowercases, keeps only letters, digits and whitespace, collapses
whitespace runs and trims the ends. -/
def normalizeTitle (s : List Char) : List Char :=
  unwords (splitWords ((s.map toLowerChar).filter keepForSort))

/-- The leading articles stripped by the sort-title normalizer, longest
match first. -/
def sortArticles : List (List Char) :=
  [['t', 'h', 'e'], ['a', 'n'], ['a']]

/-- Strips one leading article when it is followed by a space; a title that
is exactly an article is left alone. -/
def stripLeadingArticle (s : List Char) : List Char :=
  match sortArticles.find? (fun a => startsWith (a ++ [' ']) s) with
  | some a => s.drop (a.length + 1)
  | none => s

/-- Modelled from the spec: GamesService.generateSortTitle (implementation
absent from the sources; behavior fixed by its unit tests). -/
def generateSortTitle (s : List Char) : List Char :=
  stripLeadingArticle (normalizeTitle s)

/-! ## Filename parsing (FilesService)

Modelled from the spec: the filename parser extracts parenthetical groups
from a filename; the version is the first group shaped as the letter v
followed by a dotted or hyphenated identifier, and the release year is
January 1 of the first four-digit number found inside any group. The
FilesService implementation is absent from the sources. -/

/-- Collects the contents of parenthetical groups; the first argument is
none outside a group and carries the reversed group content inside one. -/
def parenGroupsCore (acc : Option (List Char)) : List Char → List (List Char)
  | [] => []
  | c :: cs =>
    match acc with
    | none =>
      if c = '(' then parenGroupsCore (some []) cs else parenGroupsCore none cs
    | some g =>
      if c = ')' then g.reverse :: parenGroupsCore none cs
      else parenGroupsCore (some (c :: g)) cs

/-- The contents of the parenthetical groups of a filename, left to right. -/
def parenGroups (s : List Char) : List (List Char) :=
  parenGroupsCore none s

/-- Characters allowed after the leading v of a version identifier. -/
def isVersionChar (c : Char) : Bool :=
  isAlphaNum c || c = '.' || c = '-'

/-- A version-shaped group: the letter v followed by a nonempty dotted or
hyphenated identifier. -/
def isVersionGroup : List Char → Bool
  | 'v' :: rest => !rest.isEmpty && rest.all isVersionChar
  | _ => false

/-- Modelled from the spec: FilesService.extractVersion (implementation
absent from the sources); the first version-shaped parenthetical group. -/
def extractVersion (s : List Char) : Option (List Char) :=
  (parenGroups s).find? isVersionGroup

/-- Maximal runs of consecutive digits; the first argument accumulates the
current run in reverse. -/
def digitRunsCore (acc : List Char) : List Char → List (List Char)
  | [] => if acc.isEmpty then [] else [acc.reverse]
  | c :: cs =>
    if isDigitChar c then digitRunsCore (c :: acc) cs
    else if acc.isEmpty then digitRunsCore [] cs
    else acc.reverse :: digitRunsCore [] cs

/-- Maximal runs of consecutive digits in a group. -/
def digitRuns (s : List Char) : List (List Char) :=
  digitRunsCore [] s

/-- Numeric value of a digit run. -/
def digitsToNat (s : List Char) : Nat :=
  s.foldl (fun n c => n * 10 + (c.toNat - '0'.toNat)) 0

/-- The first run of exactly four digits inside a group, if any. -/
def firstYearRun (g : List Char) : Option (List Char) :=
  (digitRuns g).find? (fun r => r.length = 4)

/-- A calendar date; the parser only ever produces January 1 of a year. -/
structure SimpleDate where
  year : Nat
  month : Nat
  day : Nat
deriving DecidableEq

/-- The first four-digit number found in any parenthetical group. -/
def firstYearOfGroups : List (List Char) → Option Nat
  | [] => none
  | g :: gs =>
    match firstYearRun g with
    | some r => some (digitsToNat r)
    | none => firstYearOfGroups gs

/-- Modelled from the spec: FilesService.extractReleaseYear (implementation
absent from the sources); January 1 of the first four-digit number found
inside any parenthetical group. -/
def extractReleaseYear (s : List Char) : Option SimpleDate :=
  (firstYearOfGroups (parenGroups s)).map (fun y => ⟨y, 1, 1⟩)

/-! ## Existence classification (GamesService.checkIfExistsInDatabase)

Modelled from the spec: the classifier is a pure function of the parsed
candidate and the two catalog lookups (by exact file path, and by title
plus release date). The GamesService implementation is absent from the
sources; the unit tests additionally fix that a difference in the title of
the matched record classifies as altered, so the title is among the
compared fields here alongside the path, size, version, type and
early-access flag. -/

/-- Error kinds surfaced by the modelled services; conflicts at provider
registration are distinct from the not-found kinds. -/
inductive ServiceError where
  | conflict
  | notFound
  | providerNotFound
  | internalError
deriving DecidableEq

/-- A catalog row or parsed candidate with the fields the classifier reads. -/
structure GameRow where
  id : Nat
  title : Option String
  file_path : Option String
  size : Nat
  version : Option String
  game_type : Option String
  early_access : Bool
  release_date : Option SimpleDate
  deleted_at : Option Nat
deriving DecidableEq

/-- The four existence states of a scanned file against the catalog. -/
inductive GameExistence where
  | doesNotExist
  | existsOk
  | existsButAltered
  | existsButDeletedInDatabase
deriving DecidableEq

/-- True when a compared field of the matched record differs from the
candidate: path, size, version, type, early-access, or title. -/
def trackedFieldsDiffer (found cand : GameRow) : Bool :=
  found.file_path ≠ cand.file_path || found.size ≠ cand.size ||
  found.version ≠ cand.version || found.game_type ≠ cand.game_type ||
  found.early_access ≠ cand.early_access || found.title ≠ cand.title

/-- Modelled from the spec: GamesService.checkIfExistsInDatabase
(implementation absent from the sources). Takes the candidate and the two
lookup results (by path first, then by title and release date); a candidate
missing a title or a file path is a hard internal error. -/
def checkIfExistsInDatabase (cand : GameRow)
    (byPath byTitleDate : Option GameRow) :
    Except ServiceError (GameExistence × Option GameRow) :=
  if cand.title = none ∨ cand.file_path = none then
    .error .internalError
  else
    match byPath.orElse (fun _ => byTitleDate) with
    | none => .ok (.doesNotExist, none)
    | some found =>
      if found.deleted_at ≠ none then
        .ok (.existsButDeletedInDatabase, some found)
      else if trackedFieldsDiffer found cand then
        .ok (.existsButAltered, some found)
      else
        .ok (.existsOk, some found)

/-! ## Provider registry (MetadataService)

Modelled from the spec: registration fails with a conflict on a duplicate
slug or a duplicate priority, and on success the provider list is kept
sorted by descending priority. Lookup by slug rejects a blank slug before
any lookup and otherwise fails with a distinct provider-not-found signal
when no registered provider carries the slug. The MetadataService
implementation is absent from the sources. -/

/-- A registered metadata provider. -/
structure Provider where
  slug : String
  name : String
  priority : Nat
deriving DecidableEq

/-- Descending-priority order on providers. -/
def priorityGE (a b : Provider) : Prop :=
  b.priority ≤ a.priority

instance : DecidableRel priorityGE :=
  fun a b => inferInstanceAs (Decidable (b.priority ≤ a.priority))

instance : IsTotal Provider priorityGE :=
  ⟨fun a b => Nat.le_total b.priority a.priority⟩

instance : IsTrans Provider priorityGE :=
  ⟨fun _ _ _ h h2 => Nat.le_trans h2 h⟩

/-- Inserts a provider into a descending-priority-sorted list, keeping it
sorted. -/
def insertByPriorityDesc (p : Provider) : List Provider → List Provider
  | [] => [p]
  | q :: qs =>
    if p.priority ≤ q.priority then q :: insertByPriorityDesc p qs
    else p :: q :: qs

/-- Modelled from the spec: MetadataService.registerProvider
(implementation absent from the sources). Fails with a conflict on a
duplicate slug or duplicate priority; otherwise inserts keeping the list
sorted by descending priority. -/
def registerProvider (registry : List Provider) (p : Provider) :
    Except ServiceError (List Provider) :=
  if registry.any (fun q => q.slug = p.slug) then .error .conflict
  else if registry.any (fun q => q.priority = p.priority) then .error .conflict
  else .ok (insertByPriorityDesc p registry)

/-- State-transition form of registration: a failing registration leaves
the registry unchanged and reports the error. -/
def registerStep (registry : List Provider) (p : Provider) :
    List Provider × Option ServiceError :=
  match registerProvider registry p with
  | .ok r => (r, none)
  | .error e => (registry, some e)

/-- True when a slug is empty or all whitespace. -/
def isBlankSlug (s : String) : Bool :=
  s.data.all isSpaceChar

/-- Modelled from the spec: MetadataService.getProviderBySlugOrFail
(implementation absent from the sources). A blank slug is rejected before
any lookup; an unknown slug fails with the distinct provider-not-found
signal. -/
def getProviderBySlugOrFail (registry : List Provider) (slug : String) :
    Except ServiceError Provider :=
  if isBlankSlug slug then .error .notFound
  else
    match registry.find? (fun p => p.slug = slug) with
    | some p => .ok p
    | none => .error .providerNotFound

/-! ## Relation normalization and upsert (NamedEntity family)

Modelled from the spec: every developer, publisher, tag or genre carried by
a source is re-keyed to the reserved slug gamevault with a provider-native
identifier derived from its display name in lowercase hyphenated form, its
surrogate id dropped; duplicates by natural key collapse to one. The
NamedEntity upsert reuses the id of an existing row with the same natural
key and creates a new row otherwise. -/

/-- A developer, publisher, tag or genre relation record. -/
structure RelMeta where
  rel_id : Option Nat
  provider_slug : String
  provider_data_id : String
  name : String
deriving DecidableEq

/-- Lowercase hyphenated slug of a display name: spaces become hyphens,
letters are lowercased. -/
def kebabChar (c : Char) : Char :=
  if c = ' ' then '-' else toLowerChar c

/-- Lowercase hyphenated slug form of a display name. -/
def slugifyName (s : String) : String :=
  ⟨s.data.map kebabChar⟩

/-- Natural key of a relation row. -/
def relKey (r : RelMeta) : String × String :=
  (r.provider_slug, r.provider_data_id)

/-- Re-keys one relation under the reserved gamevault slug, dropping the
surrogate id. -/
def normalizeRel (r : RelMeta) : RelMeta :=
  { rel_id := none
    provider_slug := "gamevault"
    provider_data_id := slugifyName r.name
    name := r.name }

/-- Keeps only the first relation for each natural key; the first argument
collects the keys already seen. -/
def dedupByKeyCore (seen : List (String × String)) :
    List RelMeta → List RelMeta
  | [] => []
  | r :: rs =>
    if seen.any (fun k => k = relKey r) then dedupByKeyCore seen rs
    else r :: dedupByKeyCore (relKey r :: seen) rs

/-- Modelled from the spec: relation normalization inside the merge
(implementation absent from the sources): re-key every relation under the
reserved slug and collapse duplicate natural keys. -/
def normalizeRelations (rs : List RelMeta) : List RelMeta :=
  dedupByKeyCore [] (rs.map normalizeRel)

/-- The table of NamedEntity rows, with the next fresh surrogate id. -/
structure EntityTable where
  rows : List RelMeta
  nextId : Nat
deriving DecidableEq

/-- Modelled from the spec: the NamedEntity upsert-by-natural-key
(implementation absent from the sources): reuse the existing row id when a
row with the same natural key exists, otherwise create a new row with a
fresh id. -/
def upsertEntity (t : EntityTable) (r : RelMeta) : EntityTable × RelMeta :=
  match t.rows.find? (fun x => relKey x = relKey r) with
  | some existing =>
    let updated : RelMeta := { r with rel_id := existing.rel_id }
    ({ t with
        rows := t.rows.map (fun x => if relKey x = relKey r then updated else x) },
      updated)
  | none =>
    let fresh : RelMeta := { r with rel_id := some t.nextId }
    ({ rows := t.rows ++ [fresh], nextId := t.nextId + 1 }, fresh)

/-- Upserts a list of relations left to right, returning the final table
and the stored rows. -/
def upsertAll (t : EntityTable) : List RelMeta → EntityTable × List RelMeta
  | [] => (t, [])
  | r :: rs =>
    let step := upsertEntity t r
    let rest := upsertAll step.1 rs
    (rest.1, step.2 :: rest.2)

/-! ## Metadata merge engine (MetadataService.merge)

Modelled from the spec: merge loads the entry with its provider metadata
and optional user override; with no sources at all it is a no-op, and when
a merged aggregate exists whose update timestamp is at least every candidate
source timestamp and no user override exists, recomputation is skipped.
Otherwise the candidate sources are folded in ascending priority order,
the user override last, and a source field overwrites the accumulator only
when present (for scalars) and nonempty (for collections). The
MetadataService implementation is absent from the sources. -/

/-- One metadata record: a provider source, the user override, or the
merged aggregate. Timestamps are abstract naturals. -/
structure MetaRec where
  meta_id : Option Nat
  provider_slug : String
  provider_data_id : String
  title : Option String
  description : Option String
  genres : List RelMeta
  tags : List RelMeta
  developers : List RelMeta
  publishers : List RelMeta
  updated_at : Nat
deriving DecidableEq

/-- Overwrite rule for an optional scalar field: an absent source value
never overwrites. -/
def mergeOptionField (acc src : Option String) : Option String :=
  match src with
  | some v => some v
  | none => acc

/-- Overwrite rule for a collection field: an empty source collection never
overwrites. -/
def mergeListField (acc src : List RelMeta) : List RelMeta :=
  if src.isEmpty then acc else src

/-- Folds one candidate source onto the accumulator field by field under
the strip-empty-fields overwrite rule. -/
def applySource (acc src : MetaRec) : MetaRec :=
  { acc with
    title := mergeOptionField acc.title src.title
    description := mergeOptionField acc.description src.description
    genres := mergeListField acc.genres src.genres
    tags := mergeListField acc.tags src.tags
    developers := mergeListField acc.developers src.developers
    publishers := mergeListField acc.publishers src.publishers
    updated_at := max acc.updated_at src.updated_at }

/-- Folds the candidate sources in the given order and then the user
override last. -/
def foldSources (base : MetaRec) (sources : List MetaRec)
    (user : Option MetaRec) : MetaRec :=
  match user with
  | some u => applySource (sources.foldl applySource base) u
  | none => sources.foldl applySource base

/-- Priority of the provider owning a source; unregistered slugs sort
first. -/
def priorityOf (registry : List Provider) (slug : String) : Nat :=
  match registry.find? (fun p => p.slug = slug) with
  | some p => p.priority
  | none => 0

/-- Inserts a source into an ascending-priority-sorted list of sources. -/
def insertByPriorityAsc (registry : List Provider) (m : MetaRec) :
    List MetaRec → List MetaRec
  | [] => [m]
  | s :: ss =>
    if priorityOf registry s.provider_slug ≤ priorityOf registry m.provider_slug
    then s :: insertByPriorityAsc registry m ss
    else m :: s :: ss

/-- Sorts candidate sources by ascending provider priority. -/
def sortByPriorityAsc (registry : List Provider) :
    List MetaRec → List MetaRec
  | [] => []
  | s :: ss => insertByPriorityAsc registry s (sortByPriorityAsc registry ss)

/-- A catalog entry as the merge engine sees it. -/
structure GameEntry where
  entry_id : Nat
  provider_metadata : List MetaRec
  user_metadata : Option MetaRec
  metadata : Option MetaRec
deriving DecidableEq

/-- The empty base record the fold starts from. -/
def baseMetadata (g : GameEntry) : MetaRec :=
  { meta_id := none
    provider_slug := "gamevault"
    provider_data_id := toString g.entry_id
    title := none
    description := none
    genres := []
    tags := []
    developers := []
    publishers := []
    updated_at := 0 }

/-- Modelled from the spec: the freshness guard inside merge
(implementation absent from the sources): a merged aggregate exists, its
update timestamp is at least every candidate source timestamp, and no user
override exists. -/
def isMetadataFresh (g : GameEntry) : Bool :=
  match g.metadata with
  | none => false
  | some m =>
    g.provider_metadata.all (fun s => s.updated_at ≤ m.updated_at) &&
      g.user_metadata.isNone

/-- Finalizes the folded record: owned by the reserved gamevault identity,
relations normalized and deduplicated. -/
def finalizeMetadata (g : GameEntry) (m : MetaRec) : MetaRec :=
  { m with
    meta_id := none
    provider_slug := "gamevault"
    provider_data_id := toString g.entry_id
    genres := normalizeRelations m.genres
    tags := normalizeRelations m.tags
    developers := normalizeRelations m.developers
    publishers := normalizeRelations m.publishers }

/-- The merged aggregate merge would compute for an entry. -/
def computeMerged (registry : List Provider) (g : GameEntry) : MetaRec :=
  finalizeMetadata g
    (foldSources (baseMetadata g)
      (sortByPriorityAsc registry g.provider_metadata) g.user_metadata)

/-- Result of a merge: the (possibly updated) entry and whether a metadata
write happened. -/
structure MergeResult where
  game : GameEntry
  saved : Bool
deriving DecidableEq

/-- Modelled from the spec: MetadataService.merge (implementation absent
from the sources). No sources at all is a no-op; a fresh aggregate with no
user override skips recomputation; otherwise the merged aggregate is
computed, attached and saved. -/
def mergeEntry (registry : List Provider) (g : GameEntry) : MergeResult :=
  if g.provider_metadata.isEmpty && g.user_metadata.isNone then
    { game := g, saved := false }
  else if isMetadataFresh g then
    { game := g, saved := false }
  else
    { game := { g with metadata := some (computeMerged registry g) }
      saved := true }

/-! ## Merge job queue (MetadataService.addUpdateMetadataJob)

Modelled from the spec: the pending merge jobs form a deduplicating set
keyed by catalog-entry identity with add-if-absent semantics. -/

/-- Modelled from the spec: MetadataService.addUpdateMetadataJob
(implementation absent from the sources): add-if-absent on the pending job
set, keyed by entry id. -/
def addUpdateMetadataJob (jobs : List Nat) (gid : Nat) : List Nat :=
  if jobs.any (fun j => j = gid) then jobs else jobs ++ [gid]

/-! ## Specification predicates and concrete records used by the theorems -/

/-- Spacing automaton: checks single internal spaces with no leading or
trailing whitespace; the flag records whether the previous character was a
space (or the start of the string). -/
def spacingAux (lastWasSpace : Bool) : List Char → Bool
  | [] => !lastWasSpace
  | c :: cs =>
    if isSpaceChar c then !lastWasSpace && (c = ' ') && spacingAux true cs
    else spacingAux false cs

/-- A string with no leading, trailing or doubled whitespace, all
whitespace being single plain spaces. -/
def wellSpaced (s : List Char) : Bool :=
  s.isEmpty || spacingAux true s

/-- Characters allowed in a finished sort title: lowercase letters, digits
and plain spaces. -/
def isSortChar (c : Char) : Bool :=
  isAsciiLower c || isDigitChar c || c = ' '

/-- A metadata record with every field absent or empty. -/
def emptyMetaRec : MetaRec :=
  { meta_id := none
    provider_slug := ""
    provider_data_id := ""
    title := none
    description := none
    genres := []
    tags := []
    developers := []
    publishers := []
    updated_at := 0 }

/-- The provider source of the running merge example: a title and a
description. -/
def exampleProviderMeta : MetaRec :=
  { emptyMetaRec with
    provider_slug := "test-provider"
    provider_data_id := "123"
    title := some ("Provider Title")
    description := some ("D")
    updated_at := 5 }

/-- The user override of the running merge example: a title only. -/
def exampleUserMeta : MetaRec :=
  { emptyMetaRec with
    provider_slug := "user"
    provider_data_id := "1"
    title := some ("User Title")
    updated_at := 6 }

/-- The registered provider of the running merge example. -/
def exampleProvider : Provider :=
  { slug := "test-provider", name := "Test Provider", priority := 10 }

/-- The catalog entry of the running merge example. -/
def exampleEntry : GameEntry :=
  { entry_id := 1
    provider_metadata := [exampleProviderMeta]
    user_metadata := some exampleUserMeta
    metadata := none }

/-- An entry with no metadata sources at all. -/
def exampleSkipEntry : GameEntry :=
  { entry_id := 1
    provider_metadata := []
    user_metadata := none
    metadata := none }

/-- An entry whose merged aggregate is newer than its only source and which
has no user override. -/
def exampleFreshEntry : GameEntry :=
  { entry_id := 1
    provider_metadata := [exampleProviderMeta]
    user_metadata := none
    metadata := some { emptyMetaRec with updated_at := 9 } }

/-- The scanned candidate of the altered-title example from the games
service tests. -/
def candAltered : GameRow :=
  { id := 1
    title := some ("New Title")
    file_path := some ("/files/Test Game (2023).zip")
    size := 1000
    version := some ("v1.0.0")
    game_type := some ("WINDOWS_SETUP")
    early_access := false
    release_date := none
    deleted_at := none }

/-- The catalog match of the altered-title example: identical to the
candidate in every field but the title. -/
def foundAltered : GameRow :=
  { candAltered with title := some ("Old Title") }

/-- A candidate missing both derived fields. -/
def candMissing : GameRow :=
  { candAltered with title := none, file_path := none }

/-- First duplicate developer of the relation-dedup example. -/
def devDupA : RelMeta :=
  { rel_id := some 5, provider_slug := "a", provider_data_id := "x",
    name := "Rockstar" }

/-- Second duplicate developer of the relation-dedup example: a different
surrogate id and source key but the same display name. -/
def devDupB : RelMeta :=
  { rel_id := some 7, provider_slug := "b", provider_data_id := "y",
    name := "Rockstar" }

/-- The genre of the normalization example from the metadata service
tests. -/
def genreExample : RelMeta :=
  { rel_id := some 99, provider_slug := "test-provider",
    provider_data_id := "action", name := "Action RPG" }

/-- An empty NamedEntity table. -/
def emptyTable : EntityTable :=
  { rows := [], nextId := 1 }

end GameVault

deriving instance DecidableEq for Except

namespace GameVault

/-! ## Sort-title lemmas -/

/-- Lowercasing never produces an uppercase ASCII letter. -/
theorem upper_toLowerChar (c : Char) : isAsciiUpper (toLowerChar c) = false := by
  unfold toLowerChar
  by_cases h : isAsciiUpper c = true
  · simp only [h, if_true]
    simp only [isAsciiUpper, Bool.and_eq_true, decide_eq_true_eq] at h ⊢
    obtain ⟨h1, h2⟩ := h
    have hn1 : ('A').toNat ≤ c.toNat := h1
    have hn2 : c.toNat ≤ ('Z').toNat := h2
    have hA : ('A').toNat = 65 := by decide
    have hZ : ('Z').toNat = 90 := by decide
    have hv : (c.toNat + 32).isValidChar := by
      constructor
      omega
    have heq : (Char.ofNat (c.toNat + 32)).toNat = c.toNat + 32 := by
      rw [Char.ofNat, dif_pos hv]
      rfl
    have hgt : ¬ (Char.ofNat (c.toNat + 32) ≤ 'Z') := by
      intro hle
      have hle2 : (Char.ofNat (c.toNat + 32)).toNat ≤ ('Z').toNat := hle
      omega
    simp [hgt]
  · simp only [Bool.not_eq_true] at h
    simp [h]

/-- Every word produced by the splitter is nonempty. -/
theorem wordsCore_mem_ne_nil (l : List Char) :
    ∀ (acc w : List Char), w ∈ wordsCore acc l → w ≠ [] := by
  induction l with
  | nil =>
    intro acc w hw
    by_cases h : acc.isEmpty = true
    · simp [wordsCore, h] at hw
    · simp [wordsCore, h] at hw
      subst hw
      intro hcon
      apply h
      rw [List.isEmpty_iff]
      have := congrArg List.reverse hcon
      simpa using this
  | cons c cs ih =>
    intro acc w hw
    by_cases hs : isSpaceChar c = true
    · by_cases h : acc.isEmpty = true
      · simp [wordsCore, hs, h] at hw
        exact ih [] w hw
      · simp [wordsCore, hs, h] at hw
        rcases hw with hw | hw
        · subst hw
          intro hcon
          apply h
          rw [List.isEmpty_iff]
          have := congrArg List.reverse hcon
          simpa using this
        · exact ih [] w hw
    · simp [wordsCore, hs] at hw
      exact ih (c :: acc) w hw

/-- Characters of produced words are non-space and come from the
accumulator or the input. -/
theorem wordsCore_chars (l : List Char) :
    ∀ acc, (∀ x ∈ acc, isSpaceChar x = false) →
      ∀ w ∈ wordsCore acc l, ∀ c ∈ w,
        isSpaceChar c = false ∧ (c ∈ acc ∨ c ∈ l) := by
  induction l with
  | nil =>
    intro acc hacc w hw c hc
    by_cases h : acc.isEmpty = true
    · simp [wordsCore, h] at hw
    · simp [wordsCore, h] at hw
      subst hw
      have hca : c ∈ acc := by simpa using hc
      exact ⟨hacc c hca, Or.inl hca⟩
  | cons c0 cs ih =>
    intro acc hacc w hw c hc
    by_cases hs : isSpaceChar c0 = true
    · by_cases h : acc.isEmpty = true
      · simp [wordsCore, hs, h] at hw
        have h2 := ih [] (by simp) w hw c hc
        rcases h2.2 with h3 | h3
        · simp at h3
        · exact ⟨h2.1, Or.inr (List.mem_cons_of_mem _ h3)⟩
      · simp [wordsCore, hs, h] at hw
        rcases hw with hw | hw
        · subst hw
          have hca : c ∈ acc := by simpa using hc
          exact ⟨hacc c hca, Or.inl hca⟩
        · have h2 := ih [] (by simp) w hw c hc
          rcases h2.2 with h3 | h3
          · simp at h3
          · exact ⟨h2.1, Or.inr (List.mem_cons_of_mem _ h3)⟩
    · simp [wordsCore, hs] at hw
      have hacc2 : ∀ x ∈ (c0 :: acc), isSpaceChar x = false := by
        intro x hx
        rcases List.mem_cons.mp hx with hx | hx
        · subst hx
          simpa using hs
        · exact hacc x hx
      have h2 := ih (c0 :: acc) hacc2 w hw c hc
      rcases h2.2 with h3 | h3
      · rcases List.mem_cons.mp h3 with h4 | h4
        · subst h4
          exact ⟨h2.1, Or.inr (List.mem_cons_self _ _)⟩
        · exact ⟨h2.1, Or.inl h4⟩
      · exact ⟨h2.1, Or.inr (List.mem_cons_of_mem _ h3)⟩

/-- Consuming a nonempty space-free word moves the spacing automaton into
the after-word state. -/
theorem spacingAux_append_word (w : List Char) :
    (∀ c ∈ w, isSpaceChar c = false) →
    ∀ (b : Bool) (rest : List Char),
      spacingAux b (w ++ rest) =
        spacingAux (if w.isEmpty then b else false) rest := by
  induction w with
  | nil =>
    intro _ b rest
    simp
  | cons c wtl ih =>
    intro hw b rest
    have hc : isSpaceChar c = false := hw c (List.mem_cons_self _ _)
    have htl : ∀ x ∈ wtl, isSpaceChar x = false :=
      fun x hx => hw x (List.mem_cons_of_mem _ hx)
    simp [spacingAux, hc]
    rw [ih htl false rest]
    by_cases h : wtl.isEmpty = true <;> simp [h]

/-- The join of nonempty space-free words passes the spacing automaton. -/
theorem spacingAux_unwords (ws : List (List Char)) :
    ws ≠ [] → (∀ w ∈ ws, w ≠ [] ∧ ∀ c ∈ w, isSpaceChar c = false) →
    spacingAux true (unwords ws) = true := by
  induction ws with
  | nil =>
    intro h _
    exact absurd rfl h
  | cons w wtl ih =>
    intro _ hws
    have hw := hws w (List.mem_cons_self _ _)
    have hne : w.isEmpty = false := by
      cases w with
      | nil => exact absurd rfl hw.1
      | cons x xs => rfl
    cases wtl with
    | nil =>
      have hu : unwords [w] = w := rfl
      rw [hu, ← List.append_nil w, spacingAux_append_word w hw.2 true [], hne]
      rfl
    | cons w2 wtl2 =>
      have hrec : spacingAux true (unwords (w2 :: wtl2)) = true :=
        ih (List.cons_ne_nil _ _) (fun x hx => hws x (List.mem_cons_of_mem _ hx))
      have hu : unwords (w :: w2 :: wtl2) = w ++ ' ' :: unwords (w2 :: wtl2) := rfl
      rw [hu, spacingAux_append_word w hw.2 true _, hne]
      simp [spacingAux, isSpaceChar, hrec]

/-- Every character of a word join is a space or comes from some word. -/
theorem unwords_chars (ws : List (List Char)) :
    ∀ c ∈ unwords ws, c = ' ' ∨ ∃ w ∈ ws, c ∈ w := by
  induction ws with
  | nil =>
    intro c hc
    simp [unwords] at hc
  | cons w wtl ih =>
    intro c hc
    cases wtl with
    | nil =>
      have hu : unwords [w] = w := rfl
      rw [hu] at hc
      exact Or.inr ⟨w, List.mem_cons_self _ _, hc⟩
    | cons w2 wtl2 =>
      have hu : unwords (w :: w2 :: wtl2) = w ++ ' ' :: unwords (w2 :: wtl2) := rfl
      rw [hu] at hc
      rcases List.mem_append.mp hc with hc | hc
      · exact Or.inr ⟨w, List.mem_cons_self _ _, hc⟩
      · rcases List.mem_cons.mp hc with hc | hc
        · exact Or.inl hc
        · rcases ih c hc with h | ⟨w3, hw3, hcw⟩
          · exact Or.inl h
          · exact Or.inr ⟨w3, List.mem_cons_of_mem _ hw3, hcw⟩

/-- A successful startsWith test decomposes the string. -/
theorem startsWith_append (p : List Char) :
    ∀ s, startsWith p s = true → s = p ++ s.drop p.length := by
  induction p with
  | nil =>
    intro s _
    simp
  | cons a as ih =>
    intro s h
    cases s with
    | nil => simp [startsWith] at h
    | cons b bs =>
      simp only [startsWith, Bool.and_eq_true, decide_eq_true_eq] at h
      obtain ⟨hab, h2⟩ := h
      subst hab
      simp only [List.cons_append, List.length_cons, List.drop_succ_cons]
      exact congrArg (List.cons a) (ih bs h2)

/-- Dropping a leading word and its separating space preserves good
spacing. -/
theorem wellSpaced_drop_word (a r : List Char) (hne : a ≠ [])
    (haw : ∀ c ∈ a, isSpaceChar c = false) :
    wellSpaced (a ++ ' ' :: r) = true → wellSpaced r = true := by
  intro h
  have hne2 : (a ++ ' ' :: r).isEmpty = false := by
    cases a with
    | nil => exact absurd rfl hne
    | cons x xs => rfl
  have hae : a.isEmpty = false := by
    cases a with
    | nil => exact absurd rfl hne
    | cons x xs => rfl
  unfold wellSpaced at h
  rw [hne2] at h
  simp only [Bool.false_or] at h
  rw [spacingAux_append_word a haw true (' ' :: r), hae] at h
  simp only [spacingAux, isSpaceChar] at h
  simp at h
  unfold wellSpaced
  rw [h]
  simp

/-- The normalized title has single internal spaces and trimmed ends. -/
theorem wellSpaced_normalizeTitle (s : List Char) :
    wellSpaced (normalizeTitle s) = true := by
  unfold normalizeTitle
  cases hws : splitWords ((s.map toLowerChar).filter keepForSort) with
  | nil => rfl
  | cons w wtl =>
    have hprops : ∀ x ∈ (w :: wtl), x ≠ [] ∧ ∀ c ∈ x, isSpaceChar c = false := by
      intro x hx
      rw [← hws] at hx
      unfold splitWords at hx
      exact ⟨wordsCore_mem_ne_nil _ [] x hx,
        fun c hc => (wordsCore_chars _ [] (by simp) x hx c hc).1⟩
    unfold wellSpaced
    rw [spacingAux_unwords (w :: wtl) (List.cons_ne_nil _ _) hprops]
    simp

/-- Every character of the normalized title is a lowercase letter, a digit
or a space. -/
theorem normalizeTitle_chars (s : List Char) :
    ∀ c ∈ normalizeTitle s, isSortChar c = true := by
  intro c hc
  unfold normalizeTitle at hc
  rcases unwords_chars _ c hc with h | ⟨w, hw, hcw⟩
  · subst h
    rfl
  · unfold splitWords at hw
    have h2 := wordsCore_chars _ [] (by simp) w hw c hcw
    have hmem : c ∈ (s.map toLowerChar).filter keepForSort := by
      rcases h2.2 with h3 | h3
      · simp at h3
      · exact h3
    have hkeep : keepForSort c = true := (List.mem_filter.mp hmem).2
    have hmap : c ∈ s.map toLowerChar := (List.mem_filter.mp hmem).1
    rcases List.mem_map.mp hmap with ⟨c0, _, hc0⟩
    have hup : isAsciiUpper c = false := by
      rw [← hc0]
      exact upper_toLowerChar c0
    have hns : isSpaceChar c = false := h2.1
    unfold keepForSort at hkeep
    rw [hns] at hkeep
    simp only [Bool.or_false] at hkeep
    unfold isAlphaNum at hkeep
    rw [hup] at hkeep
    simp only [Bool.false_or] at hkeep
    have hld : isAsciiLower c = true ∨ isDigitChar c = true := by
      simpa using hkeep
    rcases hld with h | h <;> simp [isSortChar, h]

/-- Characters of the sort title come from the normalized title. -/
theorem generateSortTitle_mem (s : List Char) (c : Char) :
    c ∈ generateSortTitle s → c ∈ normalizeTitle s := by
  unfold generateSortTitle stripLeadingArticle
  cases hfind : sortArticles.find?
      (fun a => startsWith (a ++ [' ']) (normalizeTitle s)) with
  | none =>
    simp only [hfind]
    exact id
  | some a =>
    simp only [hfind]
    exact fun h => List.mem_of_mem_drop h

/-- The finished sort title has single internal spaces and trimmed ends. -/
theorem generateSortTitle_wellSpaced (s : List Char) :
    wellSpaced (generateSortTitle s) = true := by
  unfold generateSortTitle stripLeadingArticle
  cases hfind : sortArticles.find?
      (fun a => startsWith (a ++ [' ']) (normalizeTitle s)) with
  | none =>
    simp only [hfind]
    exact wellSpaced_normalizeTitle s
  | some a =>
    simp only [hfind]
    have hmem : a ∈ sortArticles := List.mem_of_find?_eq_some hfind
    have hsw : startsWith (a ++ [' ']) (normalizeTitle s) = true := by
      have := List.find?_some hfind
      simpa using this
    have haprops : a ≠ [] ∧ ∀ c ∈ a, isSpaceChar c = false := by
      have hcases : a = ['t', 'h', 'e'] ∨ a = ['a', 'n'] ∨ a = ['a'] := by
        simpa [sortArticles] using hmem
      rcases hcases with h | h | h <;> subst h <;> exact ⟨by simp, by decide⟩
    have heq := startsWith_append (a ++ [' ']) (normalizeTitle s) hsw
    have hlen : (a ++ [' ']).length = a.length + 1 := by simp
    rw [hlen] at heq
    have hsplit : normalizeTitle s =
        a ++ ' ' :: (normalizeTitle s).drop (a.length + 1) := by
      rw [heq]
      simp
    have hws : wellSpaced (a ++ ' ' :: (normalizeTitle s).drop (a.length + 1)) = true := by
      rw [← hsplit]
      exact wellSpaced_normalizeTitle s
    exact wellSpaced_drop_word a _ haprops.1 haprops.2 hws

end GameVault

namespace GameVault

/-- C10: generateSortTitle lowercases its input, removes characters other
than letters, digits and spaces, collapses whitespace runs to one space and
trims the ends; it strips a single leading article (the, a, an) only when
the article is followed by a space, so a title that is only an article
keeps it, and articles not in leading position are never removed. Stated as
the spacing and character-class invariants on all inputs together with the
full set of concrete expectations of the generateSortTitle unit tests. -/
theorem C10_generateSortTitle_spec :
    (∀ s : List Char, wellSpaced (generateSortTitle s) = true) ∧
    (∀ s : List Char, ∀ c ∈ generateSortTitle s, isSortChar c = true) ∧
    generateSortTitle (("The Witcher 3").data) = ("witcher 3").data ∧
    generateSortTitle (("A Tale of Paper").data) = ("tale of paper").data ∧
    generateSortTitle (("An Epic Adventure").data) = ("epic adventure").data ∧
    generateSortTitle (("Grand Theft Auto V").data) = ("grand theft auto v").data ∧
    generateSortTitle (("Tom Clancy\x27s Splinter Cell").data) =
      ("tom clancys splinter cell").data ∧
    generateSortTitle (("").data) = [] ∧
    generateSortTitle (("!@#$%").data) = [] ∧
    generateSortTitle (("Game   With   Spaces").data) = ("game with spaces").data ∧
    generateSortTitle (("  Trimmed Title  ").data) = ("trimmed title").data ∧
    generateSortTitle (("Into the Breach").data) = ("into the breach").data ∧
    generateSortTitle (("7 Days to Die").data) = ("7 days to die").data ∧
    generateSortTitle (("The").data) = ("the").data ∧
    generateSortTitle (("A").data) = ("a").data ∧
    generateSortTitle (("Doom Eternal").data) = ("doom eternal").data := by
  refine ⟨generateSortTitle_wellSpaced, ?_, ?_, ?_, ?_, ?_, ?_, ?_, ?_, ?_, ?_, ?_, ?_, ?_, ?_, ?_⟩
  · intro s c hc
    exact normalizeTitle_chars s c (generateSortTitle_mem s c hc)
  all_goals rfl

/-- C10 witness: the invariants applied to a concrete title. -/
theorem C10_generateSortTitle_spec_witness :
    wellSpaced (generateSortTitle (("The Witcher 3").data)) = true ∧
    isSortChar 'w' = true := by
  constructor
  · exact C10_generateSortTitle_spec.1 (("The Witcher 3").data)
  · exact C10_generateSortTitle_spec.2.1 (("The Witcher 3").data) 'w' (by decide)

end GameVault

namespace GameVault

/-! ## Filename-parser lemmas -/

/-- A produced year value comes from a four-digit run of some group. -/
theorem firstYearOfGroups_some (gs : List (List Char)) :
    ∀ y, firstYearOfGroups gs = some y →
      ∃ g ∈ gs, ∃ r ∈ digitRuns g, r.length = 4 ∧ digitsToNat r = y := by
  induction gs with
  | nil =>
    intro y h
    simp [firstYearOfGroups] at h
  | cons g gs ih =>
    intro y h
    unfold firstYearOfGroups at h
    cases hr : firstYearRun g with
    | some r =>
      rw [hr] at h
      have hy : digitsToNat r = y := by
        simpa using h
      have hmem : r ∈ digitRuns g := List.mem_of_find?_eq_some hr
      have hlen : r.length = 4 := by
        have := List.find?_some hr
        simpa using this
      exact ⟨g, List.mem_cons_self _ _, r, hmem, hlen, hy⟩
    | none =>
      rw [hr] at h
      rcases ih y h with ⟨g2, hg2, r, hr2, hlen, hy⟩
      exact ⟨g2, List.mem_cons_of_mem _ hg2, r, hr2, hlen, hy⟩

/-- No group with a four-digit run means no year. -/
theorem firstYearOfGroups_none (gs : List (List Char)) :
    (∀ g ∈ gs, firstYearRun g = none) → firstYearOfGroups gs = none := by
  induction gs with
  | nil =>
    intro _
    rfl
  | cons g gs ih =>
    intro h
    unfold firstYearOfGroups
    rw [h g (List.mem_cons_self _ _)]
    exact ih (fun g2 hg2 => h g2 (List.mem_cons_of_mem _ hg2))

/-- A version-shaped group starts with the letter v. -/
theorem isVersionGroup_head (v : List Char) :
    isVersionGroup v = true → v.head? = some 'v' := by
  intro h
  match v with
  | [] => simp [isVersionGroup] at h
  | c :: rest =>
    by_cases hc : c = 'v'
    · subst hc
      rfl
    · exfalso
      unfold isVersionGroup at h
      split at h
      · rename_i heq
        exact hc (by injection heq)
      · exact Bool.false_ne_true h

/-- C9: version and release-year extraction are disjoint. extractVersion
returns only a parenthetical group shaped as v followed by a dotted or
hyphenated identifier and never a group that is only a four-digit year
(extractVersion of Game (2023).zip is undefined); extractReleaseYear
returns January 1 of the first four-digit number found inside any
parenthetical group, is absent when no parenthetical group contains one,
and never treats a bare numeric version like 1.0 as a year. -/
theorem C9_version_year_disjoint :
    (∀ f v, extractVersion f = some v →
      v ∈ parenGroups f ∧ isVersionGroup v = true ∧ v.head? = some 'v' ∧
        ¬ (v.length = 4 ∧ v.all isDigitChar = true)) ∧
    (∀ f d, extractReleaseYear f = some d →
      d.month = 1 ∧ d.day = 1 ∧
        ∃ g ∈ parenGroups f, ∃ r ∈ digitRuns g,
          r.length = 4 ∧ digitsToNat r = d.year) ∧
    (∀ f, (∀ g ∈ parenGroups f, firstYearRun g = none) →
      extractReleaseYear f = none) ∧
    extractVersion (("Game (2023).zip").data) = none ∧
    extractReleaseYear (("Game (2023).zip").data) = some ⟨2023, 1, 1⟩ ∧
    extractVersion (("Game (2023) (v2.1).zip").data) = some (("v2.1").data) ∧
    extractVersion (("Game (v1.2.3-beta).zip").data) =
      some (("v1.2.3-beta").data) ∧
    extractReleaseYear (("Game (v1.0).zip").data) = none ∧
    extractReleaseYear (("Game (2020) (v1.0).zip").data) = some ⟨2020, 1, 1⟩ ∧
    extractVersion (("Game.zip").data) = none := by
  refine ⟨?_, ?_, ?_, ?_, ?_, ?_, ?_, ?_, ?_, ?_⟩
  · intro f v h
    have hmem : v ∈ parenGroups f := List.mem_of_find?_eq_some h
    have hv : isVersionGroup v = true := by
      have := List.find?_some h
      simpa using this
    refine ⟨hmem, hv, isVersionGroup_head v hv, ?_⟩
    rintro ⟨_, hdig⟩
    have hhead := isVersionGroup_head v hv
    match v with
    | [] => simp at hhead
    | c :: rest =>
      have hc : c = 'v' := by
        injection hhead
      subst hc
      have : isDigitChar 'v' = true := by
        have := List.all_eq_true.mp hdig 'v' (List.mem_cons_self _ _)
        simpa using this
      simp [isDigitChar] at this
  · intro f d h
    unfold extractReleaseYear at h
    cases hy : firstYearOfGroups (parenGroups f) with
    | none =>
      rw [hy] at h
      simp at h
    | some y =>
      rw [hy] at h
      have hd : d = ⟨y, 1, 1⟩ := by
        simp only [Option.map_some'] at h
        exact (Option.some_inj.mp h).symm
      subst hd
      rcases firstYearOfGroups_some (parenGroups f) y hy with ⟨g, hg, r, hr, hlen, hval⟩
      exact ⟨rfl, rfl, g, hg, r, hr, hlen, hval⟩
  · intro f h
    unfold extractReleaseYear
    rw [firstYearOfGroups_none (parenGroups f) h]
    rfl
  all_goals rfl

/-- C9 witness: the general clauses applied to concrete filenames. -/
theorem C9_version_year_disjoint_witness :
    (("v2.1").data ∈ parenGroups (("Game (2023) (v2.1).zip").data) ∧
      isVersionGroup (("v2.1").data) = true ∧
      (("v2.1").data).head? = some 'v' ∧
      ¬ ((("v2.1").data).length = 4 ∧ (("v2.1").data).all isDigitChar = true)) ∧
    extractReleaseYear (("Game.zip").data) = none := by
  constructor
  · exact C9_version_year_disjoint.1 (("Game (2023) (v2.1).zip").data)
      (("v2.1").data) (by decide)
  · exact C9_version_year_disjoint.2.2.1 (("Game.zip").data) (by decide)

end GameVault

namespace GameVault

/-! ## Existence-classification theorems -/

/-- C3 (amended): for a candidate with a title and a file path, the
classifier returns exactly one of the four existence states from the two
lookups: does-not-exist when neither matches, deleted when the match is
soft-deleted, altered when the match is live and a compared field differs
(path, size, version, type, early-access, or the title, which the games
service tests fix as compared as well), and exists when the live match
differs nowhere; every matched case carries the matched record. -/
theorem C3_checkIfExists_classification (cand : GameRow)
    (byPath byTitleDate : Option GameRow)
    (ht : cand.title ≠ none) (hp : cand.file_path ≠ none) :
    (byPath = none → byTitleDate = none →
      checkIfExistsInDatabase cand byPath byTitleDate =
        .ok (.doesNotExist, none)) ∧
    (∀ found, byPath.orElse (fun _ => byTitleDate) = some found →
      (found.deleted_at ≠ none →
        checkIfExistsInDatabase cand byPath byTitleDate =
          .ok (.existsButDeletedInDatabase, some found)) ∧
      (found.deleted_at = none → trackedFieldsDiffer found cand = true →
        checkIfExistsInDatabase cand byPath byTitleDate =
          .ok (.existsButAltered, some found)) ∧
      (found.deleted_at = none → trackedFieldsDiffer found cand = false →
        checkIfExistsInDatabase cand byPath byTitleDate =
          .ok (.existsOk, some found))) := by
  have hguard : ¬ (cand.title = none ∨ cand.file_path = none) := by
    rintro (h | h)
    · exact ht h
    · exact hp h
  unfold checkIfExistsInDatabase
  rw [if_neg hguard]
  constructor
  · intro h1 h2
    subst h1
    subst h2
    rfl
  · intro found heq
    simp only [heq]
    refine ⟨?_, ?_, ?_⟩
    · intro hdel
      rw [if_pos hdel]
    · intro hdel hdiff
      rw [if_neg (fun hcon => hcon hdel), if_pos hdiff]
    · intro hdel hdiff
      rw [if_neg (fun hcon => hcon hdel), if_neg (by simp [hdiff])]

/-- C3 counterexample: a live match that differs from the candidate only in
the title is classified altered, although none of the five tracked fields
named by the claim (size, version, type, early-access, path) differs, so
the claimed exists case does not hold. -/
theorem C3_checkIfExists_counterexample :
    foundAltered.size = candAltered.size ∧
    foundAltered.version = candAltered.version ∧
    foundAltered.game_type = candAltered.game_type ∧
    foundAltered.early_access = candAltered.early_access ∧
    foundAltered.file_path = candAltered.file_path ∧
    foundAltered.deleted_at = none ∧
    checkIfExistsInDatabase candAltered (some foundAltered) none =
      .ok (.existsButAltered, some foundAltered) ∧
    checkIfExistsInDatabase candAltered (some foundAltered) none ≠
      .ok (.existsOk, some foundAltered) := by
  refine ⟨rfl, rfl, rfl, rfl, rfl, rfl, by decide, by decide⟩

/-- C3 witness: the amended classification applied to the altered-title
example. -/
theorem C3_checkIfExists_classification_witness :
    checkIfExistsInDatabase candAltered (some foundAltered) none =
      .ok (.existsButAltered, some foundAltered) := by
  have h := (C3_checkIfExists_classification candAltered (some foundAltered)
    none (by decide) (by decide)).2 foundAltered rfl
  exact h.2.1 rfl (by decide)

/-- C7: a candidate missing a title or a file path is a hard internal
error: the classifier fails and returns none of the four existence states;
being a pure function of its own candidate and lookups, the failure cannot
touch any other record. -/
theorem C7_missing_fields_error (cand : GameRow) (l1 l2 : Option GameRow)
    (h : cand.title = none ∨ cand.file_path = none) :
    checkIfExistsInDatabase cand l1 l2 = .error .internalError ∧
    ∀ st m, checkIfExistsInDatabase cand l1 l2 ≠ .ok (st, m) := by
  have he : checkIfExistsInDatabase cand l1 l2 = .error .internalError := by
    unfold checkIfExistsInDatabase
    rw [if_pos h]
  refine ⟨he, fun st m hcon => ?_⟩
  rw [he] at hcon
  exact Except.noConfusion hcon

/-- C7 witness: the hard error on the concrete candidate missing both
derived fields. -/
theorem C7_missing_fields_error_witness :
    checkIfExistsInDatabase candMissing none none = .error .internalError := by
  exact (C7_missing_fields_error candMissing none none (Or.inl rfl)).1

end GameVault

namespace GameVault

/-! ## Provider-registry theorems -/

/-- Ordered insertion permutes with plain insertion. -/
theorem insertByPriorityDesc_perm (p : Provider) (l : List Provider) :
    (insertByPriorityDesc p l).Perm (p :: l) := by
  induction l with
  | nil => exact List.Perm.refl _
  | cons q qs ih =>
    unfold insertByPriorityDesc
    by_cases h : p.priority ≤ q.priority
    · rw [if_pos h]
      exact List.Perm.trans (List.Perm.cons q ih) (List.Perm.swap p q qs)
    · rw [if_neg h]

/-- Ordered insertion keeps the list sorted by descending priority. -/
theorem insertByPriorityDesc_sorted (p : Provider) (l : List Provider) :
    List.Sorted priorityGE l →
    List.Sorted priorityGE (insertByPriorityDesc p l) := by
  induction l with
  | nil =>
    intro _
    simp [insertByPriorityDesc]
  | cons q qs ih =>
    intro hs
    rw [List.sorted_cons] at hs
    obtain ⟨hq, hqs⟩ := hs
    unfold insertByPriorityDesc
    by_cases h : p.priority ≤ q.priority
    · rw [if_pos h, List.sorted_cons]
      constructor
      · intro b hb
        have hb2 : b ∈ p :: qs := (insertByPriorityDesc_perm p qs).mem_iff.mp hb
        rcases List.mem_cons.mp hb2 with hb3 | hb3
        · subst hb3
          exact h
        · exact hq b hb3
      · exact ih hqs
    · rw [if_neg h, List.sorted_cons]
      constructor
      · intro b hb
        rcases List.mem_cons.mp hb with hb2 | hb2
        · subst hb2
          exact Nat.le_of_not_le h
        · exact Nat.le_trans (hq b hb2) (Nat.le_of_not_le h)
      · exact List.sorted_cons.mpr ⟨hq, hqs⟩

/-- C4: registration conflicts on a duplicate slug and on a duplicate
priority, in both cases leaving the registry unchanged; a successful
registration adds exactly the new provider, keeps the list sorted by
descending priority, and makes any later registration reusing the same
slug or priority conflict. -/
theorem C4_registerProvider_conflicts_sorted (registry : List Provider)
    (p : Provider) :
    ((∃ q ∈ registry, q.slug = p.slug) →
      registerStep registry p = (registry, some ServiceError.conflict)) ∧
    ((∃ q ∈ registry, q.priority = p.priority) →
      registerStep registry p = (registry, some ServiceError.conflict)) ∧
    (∀ r, registerProvider registry p = .ok r →
      (∀ q ∈ registry, q.slug ≠ p.slug ∧ q.priority ≠ p.priority) ∧
      r.Perm (p :: registry) ∧
      (List.Sorted priorityGE registry → List.Sorted priorityGE r) ∧
      (∀ p2 : Provider, p2.slug = p.slug ∨ p2.priority = p.priority →
        registerStep r p2 = (r, some ServiceError.conflict))) := by
  have hslug : (∃ q ∈ registry, q.slug = p.slug) ↔
      registry.any (fun q => q.slug = p.slug) = true := by
    simp [List.any_eq_true]
  have hprio : (∃ q ∈ registry, q.priority = p.priority) ↔
      registry.any (fun q => q.priority = p.priority) = true := by
    simp [List.any_eq_true]
  refine ⟨?_, ?_, ?_⟩
  · intro h
    unfold registerStep registerProvider
    rw [if_pos (hslug.mp h)]
  · intro h
    unfold registerStep registerProvider
    by_cases h1 : registry.any (fun q => q.slug = p.slug) = true
    · rw [if_pos h1]
    · rw [if_neg h1, if_pos (hprio.mp h)]
  · intro r hr
    unfold registerProvider at hr
    by_cases h1 : registry.any (fun q => q.slug = p.slug) = true
    · rw [if_pos h1] at hr
      exact absurd hr (by simp)
    · rw [if_neg h1] at hr
      by_cases h2 : registry.any (fun q => q.priority = p.priority) = true
      · rw [if_pos h2] at hr
        exact absurd hr (by simp)
      · rw [if_neg h2] at hr
        have hreq : insertByPriorityDesc p registry = r := Except.ok.inj hr
        subst hreq
        have hnone : ∀ q ∈ registry, q.slug ≠ p.slug ∧ q.priority ≠ p.priority := by
          intro q hq
          constructor
          · intro hcon
            exact h1 (hslug.mp ⟨q, hq, hcon⟩)
          · intro hcon
            exact h2 (hprio.mp ⟨q, hq, hcon⟩)
        have hpmem : p ∈ insertByPriorityDesc p registry :=
          (insertByPriorityDesc_perm p registry).mem_iff.mpr
            (List.mem_cons_self _ _)
        refine ⟨hnone, insertByPriorityDesc_perm p registry,
          insertByPriorityDesc_sorted p registry, ?_⟩
        intro p2 hp2
        unfold registerStep registerProvider
        rcases hp2 with hp2 | hp2
        · have hany : (insertByPriorityDesc p registry).any
              (fun q => q.slug = p2.slug) = true := by
            simp only [List.any_eq_true, decide_eq_true_eq]
            exact ⟨p, hpmem, hp2.symm⟩
          rw [if_pos hany]
        · by_cases hsl : (insertByPriorityDesc p registry).any
              (fun q => q.slug = p2.slug) = true
          · rw [if_pos hsl]
          · have hany : (insertByPriorityDesc p registry).any
                (fun q => q.priority = p2.priority) = true := by
              simp only [List.any_eq_true, decide_eq_true_eq]
              exact ⟨p, hpmem, hp2.symm⟩
            rw [if_neg hsl, if_pos hany]

/-- C4 witness: a duplicate slug and a duplicate priority both conflict
against the concrete one-provider registry, and registering into the empty
registry succeeds sorted. -/
theorem C4_registerProvider_conflicts_sorted_witness :
    registerStep [exampleProvider] ⟨"test-provider", "Other", 20⟩ =
      ([exampleProvider], some ServiceError.conflict) ∧
    registerStep [exampleProvider] ⟨"other-provider", "Other", 10⟩ =
      ([exampleProvider], some ServiceError.conflict) ∧
    List.Sorted priorityGE [exampleProvider] := by
  refine ⟨?_, ?_, ?_⟩
  · exact (C4_registerProvider_conflicts_sorted [exampleProvider]
      ⟨"test-provider", "Other", 20⟩).1 (by decide)
  · exact (C4_registerProvider_conflicts_sorted [exampleProvider]
      ⟨"other-provider", "Other", 10⟩).2.1 (by decide)
  · exact ((C4_registerProvider_conflicts_sorted [] exampleProvider).2.2
      [exampleProvider] rfl).2.2.1 List.sorted_nil

/-- C8: provider lookup by slug rejects a blank slug before any lookup with
the not-found signal, fails with the distinct provider-not-found signal
when no registered provider carries the slug, returns a registered provider
with the matching slug otherwise, and never raises the conflict signal used
at registration, so callers can branch on the error kind. -/
theorem C8_getProviderBySlug_notfound (registry : List Provider)
    (slug : String) :
    (isBlankSlug slug = true →
      getProviderBySlugOrFail registry slug = .error ServiceError.notFound) ∧
    (isBlankSlug slug = false → (∀ p ∈ registry, p.slug ≠ slug) →
      getProviderBySlugOrFail registry slug =
        .error ServiceError.providerNotFound) ∧
    (∀ p, getProviderBySlugOrFail registry slug = .ok p →
      p ∈ registry ∧ p.slug = slug) ∧
    ServiceError.notFound ≠ ServiceError.conflict ∧
    ServiceError.providerNotFound ≠ ServiceError.conflict ∧
    ServiceError.providerNotFound ≠ ServiceError.notFound ∧
    getProviderBySlugOrFail registry slug ≠ .error ServiceError.conflict := by
  refine ⟨?_, ?_, ?_, by decide, by decide, by decide, ?_⟩
  · intro hb
    unfold getProviderBySlugOrFail
    rw [if_pos hb]
  · intro hb hn
    unfold getProviderBySlugOrFail
    rw [if_neg (by simp [hb])]
    have hf : registry.find? (fun p => p.slug = slug) = none := by
      rw [List.find?_eq_none]
      intro q hq
      simp [hn q hq]
    rw [hf]
  · intro p hp
    unfold getProviderBySlugOrFail at hp
    by_cases hb : isBlankSlug slug = true
    · rw [if_pos hb] at hp
      exact absurd hp (by simp)
    · rw [if_neg hb] at hp
      cases hf : registry.find? (fun q => q.slug = slug) with
      | none =>
        simp only [hf] at hp
        exact Except.noConfusion hp
      | some q =>
        simp only [hf] at hp
        have hq : q = p := Except.ok.inj hp
        subst hq
        constructor
        · exact List.mem_of_find?_eq_some hf
        · have := List.find?_some hf
          simpa using this
  · unfold getProviderBySlugOrFail
    by_cases hb : isBlankSlug slug = true
    · rw [if_pos hb]
      simp
    · rw [if_neg hb]
      cases hf : registry.find? (fun q => q.slug = slug) with
      | none => simp
      | some q => simp

/-- C8 witness: the blank and unknown slug failures on the concrete
one-provider registry. -/
theorem C8_getProviderBySlug_notfound_witness :
    getProviderBySlugOrFail [exampleProvider] "" =
      .error ServiceError.notFound ∧
    getProviderBySlugOrFail [exampleProvider] "nonexistent" =
      .error ServiceError.providerNotFound := by
  constructor
  · exact (C8_getProviderBySlug_notfound [exampleProvider] "").1 (by decide)
  · exact (C8_getProviderBySlug_notfound [exampleProvider]
      "nonexistent").2.1 (by decide) (by decide)

end GameVault

namespace GameVault

/-! ## Job-queue theorem -/

/-- C6: enqueueing a metadata merge job is idempotent by entry identity: a
second enqueue for the same id is a no-op, and a deduplicated pending set
holds exactly one job for the id afterwards. -/
theorem C6_addUpdateMetadataJob_idempotent (jobs : List Nat) (gid : Nat) :
    addUpdateMetadataJob (addUpdateMetadataJob jobs gid) gid =
      addUpdateMetadataJob jobs gid ∧
    gid ∈ addUpdateMetadataJob jobs gid ∧
    (List.count gid jobs ≤ 1 →
      List.count gid (addUpdateMetadataJob jobs gid) = 1) := by
  have hmem : gid ∈ addUpdateMetadataJob jobs gid := by
    unfold addUpdateMetadataJob
    by_cases h : jobs.any (fun j => j = gid) = true
    · rw [if_pos h]
      simp only [List.any_eq_true, decide_eq_true_eq] at h
      rcases h with ⟨j, hj, hjg⟩
      subst hjg
      exact hj
    · rw [if_neg h]
      simp
  refine ⟨?_, hmem, ?_⟩
  · have key : ∀ l : List Nat, gid ∈ l → addUpdateMetadataJob l gid = l := by
      intro l hl
      unfold addUpdateMetadataJob
      rw [if_pos (by
        simp only [List.any_eq_true, decide_eq_true_eq]
        exact ⟨gid, hl, rfl⟩)]
    exact key _ hmem
  · intro hle
    unfold addUpdateMetadataJob
    by_cases h : jobs.any (fun j => j = gid) = true
    · rw [if_pos h]
      have hmem2 : gid ∈ jobs := by
        simp only [List.any_eq_true, decide_eq_true_eq] at h
        rcases h with ⟨j, hj, hjg⟩
        subst hjg
        exact hj
      have hpos : 0 < List.count gid jobs := List.count_pos_iff.mpr hmem2
      omega
    · rw [if_neg h]
      have hnot : gid ∉ jobs := by
        intro hcon
        exact h (by
          simp only [List.any_eq_true, decide_eq_true_eq]
          exact ⟨gid, hcon, rfl⟩)
      rw [List.count_append]
      rw [List.count_eq_zero.mpr hnot]
      simp

/-- C6 witness: double enqueue of id 42 into the empty pending set. -/
theorem C6_addUpdateMetadataJob_idempotent_witness :
    addUpdateMetadataJob (addUpdateMetadataJob [] 42) 42 =
      addUpdateMetadataJob [] 42 ∧
    List.count 42 (addUpdateMetadataJob [] 42) = 1 := by
  refine ⟨(C6_addUpdateMetadataJob_idempotent [] 42).1, ?_⟩
  exact (C6_addUpdateMetadataJob_idempotent [] 42).2.2 (by decide)

end GameVault

namespace GameVault

/-! ## Merge-engine theorems -/

/-- The freshness guard holds exactly when an aggregate exists that is at
least as new as every candidate source and no user override exists. -/
theorem isMetadataFresh_iff (g : GameEntry) :
    isMetadataFresh g = true ↔
      ∃ m, g.metadata = some m ∧
        (∀ s ∈ g.provider_metadata, s.updated_at ≤ m.updated_at) ∧
        g.user_metadata = none := by
  unfold isMetadataFresh
  cases hm : g.metadata with
  | none =>
    simp [hm]
  | some m =>
    simp only [hm]
    constructor
    · intro h
      rw [Bool.and_eq_true] at h
      refine ⟨m, rfl, ?_, Option.isNone_iff_eq_none.mp h.2⟩
      intro s hs
      have := List.all_eq_true.mp h.1 s hs
      simpa using this
    · rintro ⟨m2, hm2, hall, hu⟩
      have hmm : m = m2 := Option.some.inj hm2
      subst hmm
      rw [Bool.and_eq_true]
      constructor
      · rw [List.all_eq_true]
        intro s hs
        simpa using hall s hs
      · exact Option.isNone_iff_eq_none.mpr hu

/-- C2: merge writes nothing and returns the entry unchanged exactly when
either there are no metadata sources at all, or a merged aggregate exists
that is at least as new as every candidate source and there is no user
override; the presence of a user override always forces recomputation. -/
theorem C2_merge_skip_cases (registry : List Provider) (g : GameEntry) :
    ((mergeEntry registry g).saved = false ↔
      (g.provider_metadata = [] ∧ g.user_metadata = none) ∨
      (∃ m, g.metadata = some m ∧
        (∀ s ∈ g.provider_metadata, s.updated_at ≤ m.updated_at) ∧
        g.user_metadata = none)) ∧
    ((mergeEntry registry g).saved = false → (mergeEntry registry g).game = g) ∧
    (g.user_metadata ≠ none → (mergeEntry registry g).saved = true) := by
  have hc1 : (g.provider_metadata.isEmpty && g.user_metadata.isNone) = true ↔
      (g.provider_metadata = [] ∧ g.user_metadata = none) := by
    rw [Bool.and_eq_true]
    rw [List.isEmpty_iff, Option.isNone_iff_eq_none]
  have hsaved : (mergeEntry registry g).saved = false ↔
      ((g.provider_metadata.isEmpty && g.user_metadata.isNone) = true ∨
        isMetadataFresh g = true) := by
    unfold mergeEntry
    by_cases h1 : (g.provider_metadata.isEmpty && g.user_metadata.isNone) = true
    · rw [if_pos h1]
      simp [h1]
    · rw [if_neg h1]
      by_cases h2 : isMetadataFresh g = true
      · rw [if_pos h2]
        simp [h2]
      · rw [if_neg h2]
        simp [h1, h2]
  refine ⟨?_, ?_, ?_⟩
  · rw [hsaved, hc1, isMetadataFresh_iff]
  · intro h
    rw [hsaved] at h
    unfold mergeEntry
    rcases h with h | h
    · rw [if_pos h]
    · by_cases h1 : (g.provider_metadata.isEmpty && g.user_metadata.isNone) = true
      · rw [if_pos h1]
      · rw [if_neg h1, if_pos h]
  · intro hu
    unfold mergeEntry
    have h1 : ¬ (g.provider_metadata.isEmpty && g.user_metadata.isNone) = true := by
      intro h
      exact hu (hc1.mp h).2
    have h2 : ¬ isMetadataFresh g = true := by
      intro h
      rcases (isMetadataFresh_iff g).mp h with ⟨m, _, _, hnone⟩
      exact hu hnone
    rw [if_neg h1, if_neg h2]

/-- C2 witness: the fresh-aggregate skip and the user-override forced
recomputation on the concrete entries. -/
theorem C2_merge_skip_cases_witness :
    (mergeEntry [exampleProvider] exampleFreshEntry).saved = false ∧
    (mergeEntry [exampleProvider] exampleFreshEntry).game = exampleFreshEntry ∧
    (mergeEntry [exampleProvider] exampleEntry).saved = true := by
  have h1 := (C2_merge_skip_cases [exampleProvider] exampleFreshEntry).1.mpr
    (Or.inr ⟨{ emptyMetaRec with updated_at := 9 }, rfl, by decide, rfl⟩)
  refine ⟨h1, (C2_merge_skip_cases [exampleProvider] exampleFreshEntry).2.1 h1,
    (C2_merge_skip_cases [exampleProvider] exampleEntry).2.2 (by decide)⟩

/-- C1: the merge result is the fold of the candidate sources in ascending
priority order with the user override folded last, under the
strip-empty-fields overwrite rule: absent scalars and empty collections
never overwrite, the last-folded (highest-priority) source wins every field
it sets, a field set by the user override always wins, and a provider field
survives when the user override lacks it; concretely, a provider title and
description merged with a user title yield the user title and the provider
description. -/
theorem C1_merge_priority_fold :
    (∀ acc src : MetaRec,
      (src.title = none → (applySource acc src).title = acc.title) ∧
      (∀ t, src.title = some t → (applySource acc src).title = some t) ∧
      (src.genres = [] → (applySource acc src).genres = acc.genres) ∧
      (src.genres ≠ [] → (applySource acc src).genres = src.genres)) ∧
    (∀ (base : MetaRec) (ss : List MetaRec) (u : MetaRec) (t : String),
      u.title = some t → (foldSources base ss (some u)).title = some t) ∧
    (∀ (base : MetaRec) (ss : List MetaRec) (u : MetaRec),
      u.description = none →
        (foldSources base ss (some u)).description =
          (foldSources base ss none).description) ∧
    (∀ (base : MetaRec) (ss : List MetaRec) (p : MetaRec) (t : String),
      p.title = some t → (foldSources base (ss ++ [p]) none).title = some t) ∧
    (∀ (base : MetaRec) (ss : List MetaRec) (p : MetaRec) (t : String),
      p.description = some t →
        (foldSources base (ss ++ [p]) none).description = some t) ∧
    ((mergeEntry [exampleProvider] exampleEntry).saved = true ∧
      (mergeEntry [exampleProvider] exampleEntry).game.metadata.map
        MetaRec.title = some (some ("User Title")) ∧
      (mergeEntry [exampleProvider] exampleEntry).game.metadata.map
        MetaRec.description = some (some ("D"))) := by
  refine ⟨?_, ?_, ?_, ?_, ?_, by decide, by decide, by decide⟩
  · intro acc src
    refine ⟨?_, ?_, ?_, ?_⟩
    · intro h
      simp [applySource, mergeOptionField, h]
    · intro t h
      simp [applySource, mergeOptionField, h]
    · intro h
      simp [applySource, mergeListField, h]
    · intro h
      simp [applySource, mergeListField, List.isEmpty_iff, h]
  · intro base ss u t h
    simp [foldSources, applySource, mergeOptionField, h]
  · intro base ss u h
    simp [foldSources, applySource, mergeOptionField, h]
  · intro base ss p t h
    simp [foldSources, List.foldl_append, applySource, mergeOptionField, h]
  · intro base ss p t h
    simp [foldSources, List.foldl_append, applySource, mergeOptionField, h]

/-- C1 witness: the user title wins and the provider description survives
on the concrete fold. -/
theorem C1_merge_priority_fold_witness :
    (foldSources emptyMetaRec [exampleProviderMeta]
      (some exampleUserMeta)).title = some ("User Title") ∧
    (foldSources emptyMetaRec [exampleProviderMeta]
      (some exampleUserMeta)).description =
      (foldSources emptyMetaRec [exampleProviderMeta] none).description := by
  constructor
  · exact C1_merge_priority_fold.2.1 emptyMetaRec [exampleProviderMeta]
      exampleUserMeta ("User Title") rfl
  · exact C1_merge_priority_fold.2.2.1 emptyMetaRec [exampleProviderMeta]
      exampleUserMeta rfl

end GameVault

namespace GameVault

/-! ## Relation-normalization theorems -/

/-- Deduplication only keeps relations of the original list. -/
theorem dedupByKeyCore_subset (l : List RelMeta) :
    ∀ seen x, x ∈ dedupByKeyCore seen l → x ∈ l := by
  induction l with
  | nil =>
    intro seen x h
    simp [dedupByKeyCore] at h
  | cons r rs ih =>
    intro seen x h
    unfold dedupByKeyCore at h
    by_cases hc : seen.any (fun k => k = relKey r) = true
    · rw [if_pos hc] at h
      exact List.mem_cons_of_mem _ (ih seen x h)
    · rw [if_neg hc] at h
      rcases List.mem_cons.mp h with h2 | h2
      · subst h2
        exact List.mem_cons_self _ _
      · exact List.mem_cons_of_mem _ (ih _ x h2)

/-- Deduplication makes natural keys pairwise distinct, and avoids every
key already seen. -/
theorem dedupByKeyCore_nodup (l : List RelMeta) :
    ∀ seen, ((dedupByKeyCore seen l).map relKey).Nodup ∧
      ∀ x ∈ dedupByKeyCore seen l, ¬ relKey x ∈ seen := by
  induction l with
  | nil =>
    intro seen
    refine ⟨List.nodup_nil, ?_⟩
    intro x h
    simp [dedupByKeyCore] at h
  | cons r rs ih =>
    intro seen
    unfold dedupByKeyCore
    by_cases hc : seen.any (fun k => k = relKey r) = true
    · rw [if_pos hc]
      exact ih seen
    · rw [if_neg hc]
      have hrec := ih (relKey r :: seen)
      constructor
      · simp only [List.map_cons, List.nodup_cons]
        constructor
        · intro hmem
          rcases List.mem_map.mp hmem with ⟨y, hy, hky⟩
          exact hrec.2 y hy (by
            rw [hky]
            exact List.mem_cons_self _ _)
        · exact hrec.1
      · intro x hx
        rcases List.mem_cons.mp hx with h2 | h2
        · subst h2
          intro hmem
          apply hc
          simp only [List.any_eq_true, decide_eq_true_eq]
          exact ⟨relKey x, hmem, rfl⟩
        · intro hmem
          exact hrec.2 x h2 (List.mem_cons_of_mem _ hmem)

/-- C5: during merge every relation is re-keyed to the reserved gamevault
slug with its provider-native id the lowercase hyphenated slug of its
display name and its surrogate id dropped; coinciding natural keys collapse
to a single relation row, and the NamedEntity upsert reuses the existing
row id when the natural key already exists and creates a fresh row
otherwise. -/
theorem C5_relation_normalization :
    (∀ rs : List RelMeta, ∀ x ∈ normalizeRelations rs,
      x.provider_slug = "gamevault" ∧ x.rel_id = none ∧
        ∃ src ∈ rs, x.provider_data_id = slugifyName src.name ∧
          x.name = src.name) ∧
    (∀ rs : List RelMeta, ((normalizeRelations rs).map relKey).Nodup) ∧
    (∀ (t : EntityTable) (r f : RelMeta),
      t.rows.find? (fun x => relKey x = relKey r) = some f →
        (upsertEntity t r).2.rel_id = f.rel_id ∧
        (upsertEntity t r).1.rows.length = t.rows.length) ∧
    (∀ (t : EntityTable) (r : RelMeta),
      t.rows.find? (fun x => relKey x = relKey r) = none →
        (upsertEntity t r).2.rel_id = some t.nextId ∧
        (upsertEntity t r).1.rows.length = t.rows.length + 1) ∧
    normalizeRel genreExample =
      ({ rel_id := none, provider_slug := "gamevault",
         provider_data_id := "action-rpg", name := "Action RPG" } : RelMeta) ∧
    normalizeRelations [devDupA, devDupB] = [normalizeRel devDupA] ∧
    (upsertAll emptyTable (normalizeRelations [devDupA, devDupB])).1.rows.length = 1 := by
  refine ⟨?_, ?_, ?_, ?_, by decide, by decide, by decide⟩
  · intro rs x hx
    have hmem : x ∈ (rs.map normalizeRel) :=
      dedupByKeyCore_subset _ [] x hx
    rcases List.mem_map.mp hmem with ⟨src, hsrc, hx2⟩
    subst hx2
    exact ⟨rfl, rfl, src, hsrc, rfl, rfl⟩
  · intro rs
    exact (dedupByKeyCore_nodup (rs.map normalizeRel) []).1
  · intro t r f h
    unfold upsertEntity
    simp only [h]
    exact ⟨by simp, by simp⟩
  · intro t r h
    unfold upsertEntity
    simp only [h]
    exact ⟨by simp, by simp⟩

/-- C5 witness: upserting the normalized duplicate developer into the
empty table creates one fresh row. -/
theorem C5_relation_normalization_witness :
    (upsertEntity emptyTable (normalizeRel devDupA)).2.rel_id = some 1 ∧
    (upsertEntity emptyTable (normalizeRel devDupA)).1.rows.length = 1 := by
  have h := C5_relation_normalization.2.2.2.1 emptyTable (normalizeRel devDupA) rfl
  exact ⟨h.1, h.2⟩

end GameVault
